import Mathlib

set_option maxHeartbeats 1000000

/-!
Shallow embedding of the line-oriented teaching-language transpiler
(tokenizer, argument splitter, expression reader, statement parser/emitter)
together with theorems checking the specification's claims against it.
Lines of input are modelled as lists of characters, tokens as strings,
the token stream as a list of strings with a "\n" marker after each line.
-/

/-- C locale isspace over the space, tab, newline, vertical tab, form feed
and carriage return characters, as used by the tokenizer. -/
def isspaceC (c : Char) : Bool :=
  c == ' ' || c == '\t' || c == '\n' || c == '\x0b' || c == '\x0c' || c == '\r'

/-- The seven single-character punctuation tokens recognized by the tokenizer. -/
def isPunctC (c : Char) : Bool :=
  c == '(' || c == ')' || c == '+' || c == '-' || c == '*' || c == '/' || c == ','

/-- Characters forming identifier, keyword and number runs: alphanumeric or underscore. -/
def isWordC (c : Char) : Bool := c.isAlphanum || c == '_'

/-- Shortened name for the bound used in termination arguments below. -/
theorem length_dropWhile_le (p : α → Bool) (l : List α) :
    (l.dropWhile p).length ≤ l.length :=
  (List.dropWhile_sublist p).length_le

/-- Tokenizer for one source line, following tokenizeLine in main.cpp:
skip whitespace; a double quote starts a string literal consumed through the
next double quote (inclusive) or to end of line when none exists; the seven
punctuation characters are single-character tokens; alphanumeric/underscore
runs are single tokens; any other character is its own one-character token. -/
def tokenizeLine : List Char → List String
  | [] => []
  | c :: cs =>
    if isspaceC c then tokenizeLine cs
    else if c == '"' then
      if cs.dropWhile (fun d => !(d == '"')) = [] then
        [String.mk (c :: cs.takeWhile (fun d => !(d == '"')))]
      else
        String.mk (c :: (cs.takeWhile (fun d => !(d == '"')) ++ ['"'])) ::
          tokenizeLine (cs.dropWhile (fun d => !(d == '"'))).tail
    else if isPunctC c then String.mk [c] :: tokenizeLine cs
    else if isWordC c then
      String.mk (c :: cs.takeWhile isWordC) :: tokenizeLine (cs.dropWhile isWordC)
    else String.mk [c] :: tokenizeLine cs
termination_by l => l.length
decreasing_by
  all_goals simp_wf
  all_goals first
    | (have h1 := length_dropWhile_le (fun d => !(d == '"')) cs
       omega)
    | (have h1 := length_dropWhile_le isWordC cs
       omega)

/-- The whole-file tokenizer (tokenizeFile in main.cpp): the input is either
unavailable (the file could not be opened, yielding the empty token list) or a
list of lines; each line's tokens are followed by one "\n" line marker. -/
def tokenizeFileTokens : Option (List (List Char)) → List String
  | none => []
  | some lines => (lines.map (fun l => tokenizeLine l ++ ["\n"])).flatten

/-- The line-boundary marker test (isNewlineToken in main.cpp). -/
def isNewlineToken (t : String) : Bool := t == "\n"

/-- The three recognized primitive type keywords (isTypeKeyword in main.cpp). -/
def isTypeKeyword (t : String) : Bool := t == "integer" || t == "float" || t == "string"

/-- Type mapping table (cppType in main.cpp); unmatched text passes through. -/
def cppType (t : String) : String :=
  if t == "integer" then "int"
  else if t == "float" then "float"
  else if t == "string" then "std::string"
  else t

/-- The word-like test of the expression reader (the wordLike lambda inside
readExprUntilEOL in main.cpp): a quote-delimited literal of length at least two,
or a nonempty token whose first character is alphanumeric or underscore. -/
def wordLikeE (s : String) : Bool :=
  if decide (2 ≤ s.data.length) && (s.data.headD ' ' == '"') && (s.data.getLastD ' ' == '"')
  then true
  else !s.data.isEmpty && ((s.data.headD ' ').isAlphanum || s.data.headD ' ' == '_')

/-- The word-like test of the argument splitter (the curWord/nxtWord conditions
inside splitArgs in main.cpp): nonempty and first character alphanumeric,
underscore, or a double quote. -/
def wordLikeS (s : String) : Bool :=
  !s.data.isEmpty &&
    ((s.data.headD ' ').isAlphanum || s.data.headD ' ' == '_' || s.data.headD ' ' == '"')

/-- Word-like as the spec glossary words it: a token whose first character is
alphanumeric, underscore, or a quote character.  Reference definition written
from the spec, for comparison against the two tests the code actually uses. -/
def wordLikeSpec (s : String) : Bool :=
  match s.data with
  | [] => false
  | c :: _ => c.isAlphanum || c == '_' || c == '"'

/-- Expression reader (readExprUntilEOL in main.cpp): consumes tokens up to the
next line marker, drops stray "te" tokens, and joins the rest, writing a single
space after a token whenever the immediately following token is not a line
marker and both are word-like.  Returns the expression string together with the
unconsumed remainder of the token list (the cursor after the call). -/
def readExprUntilEOL : List String → String × List String
  | [] => ("", [])
  | t :: rest =>
    if isNewlineToken t then ("", t :: rest)
    else if t == "te" then readExprUntilEOL rest
    else
      let sp :=
        match rest with
        | [] => ""
        | n :: _ =>
          if isNewlineToken n then ""
          else if wordLikeE t && wordLikeE n then " " else ""
      (t ++ sp ++ (readExprUntilEOL rest).1, (readExprUntilEOL rest).2)

/-- C locale whitespace trim on both ends, as the flushArg lambda does. -/
def cTrim (s : String) : String :=
  String.mk (((s.data.dropWhile isspaceC).reverse.dropWhile isspaceC).reverse)

/-- The flushArg lambda inside splitArgs in main.cpp: trim the buffered text and
append it to the argument list unless it trimmed to nothing. -/
def flushArg (args : List String) (cur : String) : List String :=
  let s := cTrim cur
  if s.isEmpty then args else args ++ [s]

/-- Loop body of splitArgs in main.cpp, with the mutable state (depth, current
buffer, collected arguments) passed explicitly.  An opening parenthesis raises
the depth; a closing parenthesis at depth zero flushes and stops, consuming it;
at positive depth it lowers the depth; a comma at depth zero flushes; line
markers are skipped; every other token is appended, followed by a single space
when it and the next token in the sequence are both word-like.  Running out of
tokens discards the buffer. -/
def splitArgsAux : List String → Nat → String → List String → List String × List String
  | [], _, _, args => (args, [])
  | t :: rest, depth, cur, args =>
    if t == "(" then splitArgsAux rest (depth + 1) (cur ++ t) args
    else if t == ")" then
      if depth == 0 then (flushArg args cur, rest)
      else splitArgsAux rest (depth - 1) (cur ++ t) args
    else if t == "," && depth == 0 then splitArgsAux rest depth "" (flushArg args cur)
    else if isNewlineToken t then splitArgsAux rest depth cur args
    else
      let sp :=
        match rest with
        | [] => ""
        | n :: _ => if wordLikeS t && wordLikeS n then " " else ""
      splitArgsAux rest depth (cur ++ t ++ sp) args

/-- splitArgs in main.cpp: cursor positioned just after the consumed opening
parenthesis; returns the argument strings and the cursor after the call. -/
def splitArgs (tok : List String) : List String × List String :=
  splitArgsAux tok 0 "" []

theorem readExprUntilEOL_rest_length_le :
    ∀ l : List String, (readExprUntilEOL l).2.length ≤ l.length := by
  intro l
  induction l with
  | nil => simp [readExprUntilEOL]
  | cons t rest ih =>
    rw [readExprUntilEOL.eq_def]
    dsimp only
    split
    · exact Nat.le_refl _
    · split
      · exact Nat.le_succ_of_le ih
      · exact Nat.le_succ_of_le ih

theorem splitArgsAux_rest_length_le :
    ∀ (l : List String) (d : Nat) (cur : String) (args : List String),
      (splitArgsAux l d cur args).2.length ≤ l.length := by
  intro l
  induction l with
  | nil => intro d cur args; simp [splitArgsAux]
  | cons t rest ih =>
    intro d cur args
    rw [splitArgsAux.eq_def]
    dsimp only
    split
    · exact Nat.le_succ_of_le (ih _ _ _)
    · split
      · split
        · dsimp only
          simp only [List.length_cons]
          omega
        · exact Nat.le_succ_of_le (ih _ _ _)
      · split
        · exact Nat.le_succ_of_le (ih _ _ _)
        · split
          · exact Nat.le_succ_of_le (ih _ _ _)
          · exact Nat.le_succ_of_le (ih _ _ _)

/-- Statement parser and emitter (the scan loop of transpile in main.cpp), with
the mutable state (collected body lines, usesString flag, usesFloat flag)
passed explicitly.  Line markers between statements are skipped; a "dekhao"
token followed by "(" emits one output statement from the split argument list
and discards the rest of the line; a type keyword with at least three further
tokens remaining in the whole sequence emits one declaration, consuming the
identifier, an optional "te", and the expression to end of line; anything else
is discarded to end of line. -/
def transpileAux : List String → List String → Bool → Bool → List String × Bool × Bool
  | [], body, s, f => (body, s, f)
  | t :: rest, body, s, f =>
    if isNewlineToken t then transpileAux rest body s f
    else if t == "dekhao" then
      if rest.head? == some "(" then
        let args := (splitArgs rest.tail).1
        let rest4 := ((splitArgs rest.tail).2).dropWhile (fun x => !(x == "\n"))
        transpileAux rest4
          (body ++
            ["std::cout" ++ String.join (args.map (fun a => " << " ++ a)) ++ " << std::endl;"])
          s f
      else
        transpileAux (rest.dropWhile (fun x => !(x == "\n"))) body s f
    else if decide (3 ≤ rest.length) && isTypeKeyword t then
      let id := rest.headD ""
      let afterTe := if rest.tail.headD "" == "te" then rest.tail.tail else rest.tail
      transpileAux ((readExprUntilEOL afterTe).2)
        (body ++ [cppType t ++ " " ++ id ++ " = " ++ (readExprUntilEOL afterTe).1 ++ ";"])
        (s || (t == "string")) (f || (t == "float"))
    else
      transpileAux (rest.dropWhile (fun x => !(x == "\n"))) body s f
termination_by l _ _ _ => l.length
decreasing_by
  all_goals simp_wf
  all_goals try simp only [dite_eq_ite, List.length_cons]
  all_goals first
    | omega
    | (have h1 : (splitArgs rest.tail).2.length ≤ rest.tail.length :=
         splitArgsAux_rest_length_le rest.tail 0 "" []
       have h2 := length_dropWhile_le (fun x => !(x == "\n")) (splitArgs rest.tail).2
       have h3 : rest.tail.length ≤ rest.length := by
         cases rest <;> simp
       omega)
    | (have h1 := length_dropWhile_le (fun x => !(x == "\n")) rest
       omega)
    | (have h1 := readExprUntilEOL_rest_length_le
         (if rest[1]?.getD "" = "te" then rest.tail.tail else rest.tail)
       have h2 : (if rest[1]?.getD "" = "te" then rest.tail.tail else rest.tail).length
           ≤ rest.length := by
         split <;> simp [List.length_tail] <;> omega
       omega)

/-- Feature-flag projection of the same scan: which of the two declaration
type keywords (string, float) a recognized declaration statement ever uses.
Follows the dispatch of transpileAux exactly, recording only the flags. -/
def declFlags : List String → Bool × Bool
  | [] => (false, false)
  | t :: rest =>
    if isNewlineToken t then declFlags rest
    else if t == "dekhao" then
      if rest.head? == some "(" then
        declFlags (((splitArgs rest.tail).2).dropWhile (fun x => !(x == "\n")))
      else
        declFlags (rest.dropWhile (fun x => !(x == "\n")))
    else if decide (3 ≤ rest.length) && isTypeKeyword t then
      ((t == "string") ||
        (declFlags ((readExprUntilEOL
          (if rest.tail.headD "" == "te" then rest.tail.tail else rest.tail)).2)).1,
       (t == "float") ||
        (declFlags ((readExprUntilEOL
          (if rest.tail.headD "" == "te" then rest.tail.tail else rest.tail)).2)).2)
    else
      declFlags (rest.dropWhile (fun x => !(x == "\n")))
termination_by l => l.length
decreasing_by
  all_goals simp_wf
  all_goals try simp only [dite_eq_ite, List.length_cons]
  all_goals try rename List String => rest
  all_goals first
    | omega
    | (have h1 : (splitArgs rest.tail).2.length ≤ rest.tail.length :=
         splitArgsAux_rest_length_le rest.tail 0 "" []
       have h2 := length_dropWhile_le (fun x => !(x == "\n")) (splitArgs rest.tail).2
       have h3 : rest.tail.length ≤ rest.length := by
         cases rest <;> simp
       omega)
    | (have h1 := length_dropWhile_le (fun x => !(x == "\n")) rest
       omega)
    | (have h1 := readExprUntilEOL_rest_length_le
         (if rest[1]?.getD "" = "te" then rest.tail.tail else rest.tail)
       have h2 : (if rest[1]?.getD "" = "te" then rest.tail.tail else rest.tail).length
           ≤ rest.length := by
         split <;> simp [List.length_tail] <;> omega
       omega)
    | (have h1 := readExprUntilEOL_rest_length_le
         (if rest.tail.headD "" == "te" then rest.tail.tail else rest.tail)
       have h2 : (if rest.tail.headD "" == "te" then rest.tail.tail else rest.tail).length
           ≤ rest.length := by
         split <;> simp [List.length_tail] <;> omega
       omega)

/-- The generated program as a list of lines, exactly as transpile in main.cpp
assembles its output: the iostream include, the string include when usesString
is set, the using line, a blank line, the main header, each collected body line
indented by four spaces in order, the return, and the closing brace. -/
def outputLines (body : List String) (usesString : Bool) : List String :=
  ["#include <iostream>"] ++
    (if usesString then ["#include <string>"] else []) ++
    ["using namespace std;", "", "int main() \x7b"] ++
    body.map (fun st => "    " ++ st) ++
    ["    return 0;", "\x7d"]

/-- transpile in main.cpp: run the scan from empty state and render the lines,
each terminated by a newline. -/
def transpile (tok : List String) : String :=
  String.join
    ((outputLines (transpileAux tok [] false false).1
        (transpileAux tok [] false false).2.1).map (fun l => l ++ "\n"))

/-- Exit status of main in main.cpp: 1 (after a diagnostic) when the token list
is empty, which happens exactly when the input could not be opened or produced
no lines; 0 otherwise. -/
def mainExit (input : Option (List (List Char))) : Nat :=
  if (tokenizeFileTokens input).isEmpty then 1 else 0

/-! ## Reference definitions and helper lemmas -/

/-- Reference re-serialization of an expression token list, as the spec's
declaration sentence words it, instantiated with the expression reader's
word-like test: adjacent word-like tokens are separated by exactly one space,
all other adjacent tokens are concatenated with no space. -/
def serializeExprE : List String → String
  | [] => ""
  | [t] => t
  | t :: u :: r =>
    t ++ (if wordLikeE t && wordLikeE u then " " else "") ++ serializeExprE (u :: r)

/-- On a line suffix free of markers and stray "te" tokens, the expression
reader returns exactly the reference re-serialization and stops at the marker. -/
theorem readExprUntilEOL_serialize :
    ∀ (e rest : List String),
      (∀ x ∈ e, ¬x = "\n" ∧ ¬x = "te") →
      readExprUntilEOL (e ++ "\n" :: rest) = (serializeExprE e, "\n" :: rest) := by
  intro e
  induction e with
  | nil =>
    intro rest _
    simp [readExprUntilEOL, serializeExprE, isNewlineToken]
  | cons t e2 ih =>
    intro rest h
    have ht : (t == "\n") = false := by
      simpa using (h t (by simp)).1
    have hte : (t == "te") = false := by
      simpa using (h t (by simp)).2
    have h2 : ∀ x ∈ e2, ¬x = "\n" ∧ ¬x = "te" := fun x hx => h x (List.mem_cons_of_mem _ hx)
    rw [List.cons_append, readExprUntilEOL.eq_def]
    dsimp only
    rw [if_neg (by simp [isNewlineToken, ht]), if_neg (by simp [hte])]
    rw [ih rest h2]
    cases e2 with
    | nil => simp [serializeExprE, isNewlineToken]
    | cons u r =>
      have hu : (u == "\n") = false := by
        simpa using (h2 u (by simp)).1
      simp [serializeExprE, isNewlineToken, hu]

/-- A leading line marker is skipped by the scan. -/
theorem transpileAux_newline (rest body : List String) (s f : Bool) :
    transpileAux ("\n" :: rest) body s f = transpileAux rest body s f := by
  simp [transpileAux, isNewlineToken]

/-- Every recognized type keyword is a specific one of the three strings. -/
theorem isTypeKeyword_cases {ty : String} (h : isTypeKeyword ty = true) :
    ty = "integer" ∨ ty = "float" ∨ ty = "string" := by
  have h2 := h
  simp only [isTypeKeyword, Bool.or_eq_true, beq_iff_eq] at h2
  tauto

/-- One scan step on a declaration line of the form
type keyword, identifier, "te", expression tokens, line marker: exactly one
declaration line is appended and the scan resumes after the marker. -/
theorem transpileAux_decl (ty id : String) (e rest body : List String) (s f : Bool)
    (hty : isTypeKeyword ty = true)
    (hexpr : ∀ x ∈ e, ¬x = "\n" ∧ ¬x = "te") :
    transpileAux (ty :: id :: "te" :: (e ++ "\n" :: rest)) body s f =
      transpileAux rest
        (body ++ [cppType ty ++ " " ++ id ++ " = " ++ serializeExprE e ++ ";"])
        (s || (ty == "string")) (f || (ty == "float")) := by
  have hnl : isNewlineToken ty = false := by
    rcases isTypeKeyword_cases hty with h | h | h <;> subst h <;> decide
  have hdk : (ty == "dekhao") = false := by
    rcases isTypeKeyword_cases hty with h | h | h <;> subst h <;> decide
  have hguard : (decide (3 ≤ (id :: "te" :: (e ++ "\n" :: rest)).length)
      && isTypeKeyword ty) = true := by
    simp [hty, List.length_append]
    omega
  rw [transpileAux.eq_def]
  dsimp only
  rw [if_neg (by simp [hnl]), if_neg (by simp [hdk]), if_pos hguard]
  simp only [List.headD_cons, List.tail_cons]
  rw [if_pos (by simp)]
  rw [readExprUntilEOL_serialize e rest hexpr]
  exact transpileAux_newline rest _ _ _

/-! ## C1 -/

/-- C1 counterexample.  On the source line tokenized as
integer x te y "abc (the last token an unterminated string literal, which the
tokenizer legally produces), both expression tokens are word-like in the
glossary's sense, yet the emitted declaration fuses them with no separating
space: the code emits int x = y"abc; and not int x = y "abc;.  So the claim's
spacing sentence (one space between adjacent word-like tokens) is false as
stated. -/
theorem claim1_counterexample :
    wordLikeSpec "y" = true ∧ wordLikeSpec "\"abc" = true ∧
    (transpileAux ["integer", "x", "te", "y", "\"abc", "\n"] [] false false).1
      = ["int x = y\"abc;"] ∧
    "int x = y\"abc;" ≠ "int x = y \"abc;" := by
  refine ⟨by decide, by decide, ?_, by decide⟩
  simp [transpileAux, readExprUntilEOL, cppType, isTypeKeyword, isNewlineToken, wordLikeE]

/-- C1 (amended).  For every source line of the form
type keyword, identifier, separator "te", nonempty expression (no line markers,
no stray "te" tokens), the scan appends exactly one code line declaring the
identifier with the mapped target type, initialized to the re-serialized
expression — where a single space separates adjacent tokens exactly when both
pass the expression reader's word-like test (first character alphanumeric or
underscore, or a quote-delimited literal of length at least two), all other
adjacent tokens being fused — and the fixed type mapping sends integer to int,
float to float, string to std::string, and passes any other text through
unchanged. -/
theorem claim1_decl_emission (ty id : String) (e rest body : List String) (s f : Bool)
    (hty : isTypeKeyword ty = true) (hne : e ≠ [])
    (hexpr : ∀ x ∈ e, ¬x = "\n" ∧ ¬x = "te") :
    (transpileAux (ty :: id :: "te" :: (e ++ "\n" :: rest)) body s f =
      transpileAux rest
        (body ++ [cppType ty ++ " " ++ id ++ " = " ++ serializeExprE e ++ ";"])
        (s || (ty == "string")) (f || (ty == "float"))) ∧
    cppType "integer" = "int" ∧ cppType "float" = "float" ∧
    cppType "string" = "std::string" ∧
    (∀ t, isTypeKeyword t = false → cppType t = t) := by
  refine ⟨transpileAux_decl ty id e rest body s f hty hexpr, by decide, by decide, by decide, ?_⟩
  intro t h
  simp only [isTypeKeyword, Bool.or_eq_false_iff, beq_eq_false_iff_ne] at h
  simp [cppType, h.1.1, h.1.2, h.2]

/-- C1 witness: the amended statement applied to the line
integer count te 5 + 2. -/
theorem claim1_decl_emission_witness :
    isTypeKeyword "integer" = true ∧
    (∀ x ∈ ["5", "+", "2"], ¬x = "\n" ∧ ¬x = "te") ∧
    transpileAux ["integer", "count", "te", "5", "+", "2", "\n"] [] false false =
      transpileAux []
        ([] ++ [cppType "integer" ++ " " ++ "count" ++ " = " ++ serializeExprE ["5", "+", "2"] ++ ";"])
        (false || ("integer" == "string")) (false || ("integer" == "float")) :=
  ⟨by decide, by decide,
    (claim1_decl_emission "integer" "count" ["5", "+", "2"] [] [] false false
      (by decide) (by decide) (by decide)).1⟩

/-- Skipping to end of line from a marker-free token list lands on the marker. -/
theorem dropToEOL_append (mid rest : List String) (h : ¬"\n" ∈ mid) :
    (mid ++ "\n" :: rest).dropWhile (fun x => !(x == "\n")) = "\n" :: rest := by
  induction mid with
  | nil => simp [List.dropWhile]
  | cons m mid2 ih =>
    have hm : ¬m = "\n" := fun he => h (by simp [he])
    have h2 : ¬"\n" ∈ mid2 := fun he => h (List.mem_cons_of_mem _ he)
    rw [List.cons_append, List.dropWhile_cons]
    rw [if_pos (by simpa using hm)]
    exact ih h2

/-! ## C3 -/

/-- C3 counterexample.  The single source line integer x y has only two tokens
after the type keyword on its line, so the claim says it must be discarded with
nothing emitted; but the guard in the code counts the line marker too
(three remaining tokens in the whole sequence), so the line is accepted and a
declaration line is emitted. -/
theorem claim3_counterexample :
    (transpileAux ["integer", "x", "y", "\n"] [] false false).1 = ["int x = y;"] ∧
    ¬["int x = y;"] = ([] : List String) := by
  refine ⟨?_, by decide⟩
  simp [transpileAux, readExprUntilEOL, cppType, isTypeKeyword, isNewlineToken, wordLikeE]

/-- C3 (amended).  A line starting with a type keyword is treated as
unrecognized — tokens discarded up to the next line boundary, no code line
emitted, flags unchanged — exactly when fewer than three tokens remain after
the keyword in the entire remaining token sequence, line-boundary markers and
tokens of later lines included (not merely tokens on the same line). -/
theorem claim3_short_decl_skipped (t : String) (rest body : List String) (s f : Bool)
    (hty : isTypeKeyword t = true) (hlen : rest.length < 3) :
    transpileAux (t :: rest) body s f =
      transpileAux (rest.dropWhile (fun x => !(x == "\n"))) body s f := by
  have hnl : isNewlineToken t = false := by
    rcases isTypeKeyword_cases hty with h | h | h <;> subst h <;> decide
  have hdk : (t == "dekhao") = false := by
    rcases isTypeKeyword_cases hty with h | h | h <;> subst h <;> decide
  have hguard : (decide (3 ≤ rest.length) && isTypeKeyword t) = false := by
    simp only [Bool.and_eq_false_iff]
    left
    simpa using hlen
  rw [transpileAux.eq_def]
  dsimp only
  rw [if_neg (by simp [hnl]), if_neg (by simp [hdk]), if_neg (by simp [hguard])]

/-- C3 witness: the amended statement applied to the final line integer x. -/
theorem claim3_short_decl_skipped_witness :
    isTypeKeyword "integer" = true ∧ (["x", "\n"] : List String).length < 3 ∧
    transpileAux ["integer", "x", "\n"] [] false false =
      transpileAux ((["x", "\n"] : List String).dropWhile (fun x => !(x == "\n"))) [] false false :=
  ⟨by decide, by decide,
    claim3_short_decl_skipped "integer" ["x", "\n"] [] false false (by decide) (by decide)⟩

/-! ## C5 -/

/-- C5 counterexample.  For the input line float ratio te total / count the
code emits the initializer total/count with no spaces (the slash is not
word-like), not the claim's literal text total / count. -/
theorem claim5_counterexample :
    (transpileAux (tokenizeFileTokens (some ["float ratio te total / count".data]))
        [] false false).1
      = ["float ratio = total/count;"] ∧
    ¬["float ratio = total/count;"] = ["float ratio = total / count;"] := by
  have htok : tokenizeFileTokens (some ["float ratio te total / count".data])
      = ["float", "ratio", "te", "total", "/", "count", "\n"] := by
    simp [tokenizeFileTokens, tokenizeLine, isspaceC, isPunctC, isWordC]
  rw [htok]
  refine ⟨?_, by decide⟩
  simp [transpileAux, readExprUntilEOL, cppType, isTypeKeyword, isNewlineToken, wordLikeE]

/-- C5 (amended).  The input line float ratio te total / count sets the float
feature flag to true and emits one declaration of ratio with the mapped
floating-point type whose initializer string is exactly total/count (the
operator is not word-like, so no spaces are inserted around it). -/
theorem claim5_float_line :
    transpileAux (tokenizeFileTokens (some ["float ratio te total / count".data])) [] false false
      = (["float ratio = total/count;"], false, true) := by
  have htok : tokenizeFileTokens (some ["float ratio te total / count".data])
      = ["float", "ratio", "te", "total", "/", "count", "\n"] := by
    simp [tokenizeFileTokens, tokenizeLine, isspaceC, isPunctC, isWordC]
  rw [htok]
  simp [transpileAux, readExprUntilEOL, cppType, isTypeKeyword, isNewlineToken, wordLikeE]

/-! ## C7 -/

/-- C7.  A line whose first token is the print keyword not followed by an
opening parenthesis, and a line matching neither statement shape, are both
discarded to the line boundary: nothing is emitted for them (no blank line, no
error line), neither feature flag changes, and the scan continues with the
next line. -/
theorem claim7_skipped_lines :
    (∀ (mid rest body : List String) (s f : Bool),
      ¬"\n" ∈ mid → ¬mid.head? = some "(" →
      transpileAux ("dekhao" :: (mid ++ "\n" :: rest)) body s f
        = transpileAux rest body s f) ∧
    (∀ (w : String) (mid rest body : List String) (s f : Bool),
      ¬w = "\n" → ¬w = "dekhao" → isTypeKeyword w = false → ¬"\n" ∈ mid →
      transpileAux (w :: (mid ++ "\n" :: rest)) body s f
        = transpileAux rest body s f) := by
  constructor
  · intro mid rest body s f hmid hhead
    have hh : ((mid ++ "\n" :: rest).head? == some "(") = false := by
      cases mid with
      | nil => simp
      | cons m mid2 =>
        simp only [List.cons_append, List.head?_cons, beq_eq_false_iff_ne, ne_eq,
          Option.some.injEq]
        intro he
        exact hhead (by simp [he])
    rw [transpileAux.eq_def]
    dsimp only
    rw [if_neg (by decide), if_pos (by decide), if_neg (by rw [hh]; decide)]
    rw [dropToEOL_append mid rest hmid]
    exact transpileAux_newline rest body s f
  · intro w mid rest body s f hw hdk hty hmid
    rw [transpileAux.eq_def]
    dsimp only
    rw [if_neg (by simp [isNewlineToken, hw]), if_neg (by simp [hdk]),
      if_neg (by simp [hty])]
    rw [dropToEOL_append mid rest hmid]
    exact transpileAux_newline rest body s f

/-- C7 witness: the malformed print line dekhao x and the unrecognized line
foo y, each followed by one more line. -/
theorem claim7_skipped_lines_witness :
    (¬"\n" ∈ (["x"] : List String) ∧ ¬(["x"] : List String).head? = some "(" ∧
      transpileAux ["dekhao", "x", "\n", "a", "\n"] [] false false
        = transpileAux ["a", "\n"] [] false false) ∧
    (¬("foo" : String) = "\n" ∧ ¬("foo" : String) = "dekhao" ∧ isTypeKeyword "foo" = false ∧
      ¬"\n" ∈ (["y"] : List String) ∧
      transpileAux ["foo", "y", "\n", "a", "\n"] [] true false
        = transpileAux ["a", "\n"] [] true false) :=
  ⟨⟨by decide, by decide,
      claim7_skipped_lines.1 ["x"] ["a", "\n"] [] false false (by decide) (by decide)⟩,
   ⟨by decide, by decide, by decide, by decide,
      claim7_skipped_lines.2 "foo" ["y"] ["a", "\n"] [] true false
        (by decide) (by decide) (by decide) (by decide)⟩⟩

/-- The optional last element of a nonempty list is its getLastD value. -/
theorem getLast?_cons (c : α) (l : List α) (d : α) :
    (c :: l).getLast? = some ((c :: l).getLastD d) := by
  induction l generalizing c d with
  | nil => rfl
  | cons e l2 ih =>
    rw [List.getLast?_cons_cons, ih e c, List.getLastD_cons, List.getLastD_cons,
      List.getLastD_cons]

/-! ## C4 -/

/-- C4 counterexample.  The token "abc (an opening quote with no closing
quote, which the tokenizer produces for an unterminated string literal) is
word-like for the argument splitter and for the glossary definition, but not
for the expression reader; so the two tests do not agree on every token. -/
theorem claim4_counterexample :
    tokenizeLine "\"abc".data = ["\"abc"] ∧
    wordLikeS "\"abc" = true ∧ wordLikeE "\"abc" = false ∧
    wordLikeSpec "\"abc" = true := by
  refine ⟨?_, by decide, by decide, by decide⟩
  simp [tokenizeLine, isspaceC, isPunctC, isWordC]

/-- C4 (amended).  The glossary's word-like definition coincides with the
argument splitter's test on every token.  The expression reader's test agrees
with the splitter's on every token not beginning with a double quote; on a
token beginning with a double quote the reader instead demands that it also
end with a double quote and have length at least two (a closed string
literal), while the splitter accepts all of them. -/
theorem claim4_wordlike_tests :
    (∀ s : String, wordLikeSpec s = wordLikeS s) ∧
    (∀ (s : String) (c : Char) (cs : List Char),
      s.data = c :: cs → ¬c = '"' → wordLikeE s = wordLikeS s) ∧
    (∀ (s : String) (cs : List Char),
      s.data = '"' :: cs → wordLikeE s = (cs.getLast? == some '"')) := by
  refine ⟨?_, ?_, ?_⟩
  · intro s
    rcases hs : s.data with _ | ⟨c, cs⟩ <;>
      simp [wordLikeSpec, wordLikeS, hs]
  · intro s c cs hs hc
    have hq : (c == '"') = false := by simpa using hc
    simp [wordLikeE, wordLikeS, hs, hq]
  · intro s cs hs
    simp only [wordLikeE, hs]
    cases cs with
    | nil => decide
    | cons c2 cs2 =>
      have hgl : ('"' :: c2 :: cs2).getLastD ' ' = (c2 :: cs2).getLastD '"' :=
        List.getLastD_cons _ _ _
      have hlen : (decide (2 ≤ ('"' :: c2 :: cs2 : List Char).length)) = true := by
        simp only [List.length_cons, decide_eq_true_eq]
        omega
      rw [getLast?_cons c2 cs2 '"']
      simp only [hgl, hlen, List.headD_cons]
      cases hb : ((c2 :: cs2).getLastD '"' == '"') with
      | true =>
        have hb2 : (c2 :: cs2).getLastD '"' = '"' := by simpa using hb
        simpa using hb2
      | false =>
        have hb2 : ¬(c2 :: cs2).getLastD '"' = '"' := by simpa using hb
        simpa using hb2

/-- C4 witness: the amended statement applied to the tokens x1 (agreement of
glossary and splitter), ab (agreement of reader and splitter away from quotes)
and the closed literal "ab" (the reader's quote rule). -/
theorem claim4_wordlike_tests_witness :
    wordLikeSpec "x1" = wordLikeS "x1" ∧
    (("ab" : String).data = 'a' :: ['b'] ∧ ¬('a' : Char) = '"' ∧
      wordLikeE "ab" = wordLikeS "ab") ∧
    (("\"ab\"" : String).data = '"' :: ['a', 'b', '"'] ∧
      wordLikeE "\"ab\"" = ((['a', 'b', '"'] : List Char).getLast? == some '"')) :=
  ⟨claim4_wordlike_tests.1 "x1",
   ⟨by decide, by decide, claim4_wordlike_tests.2.1 "ab" 'a' ['b'] (by decide) (by decide)⟩,
   ⟨by decide, claim4_wordlike_tests.2.2 "\"ab\"" ['a', 'b', '"'] (by decide)⟩⟩

/-! ## C6 -/

/-- Scanning through a prefix on which the predicate holds, up to a failing
element, splits takeWhile and dropWhile there. -/
theorem takeWhile_dropWhile_append (p : α → Bool) :
    ∀ (a : List α) (x : α) (b : List α), (∀ y ∈ a, p y = true) → p x = false →
      (a ++ x :: b).takeWhile p = a ∧ (a ++ x :: b).dropWhile p = x :: b := by
  intro a
  induction a with
  | nil =>
    intro x b _ hx
    simp [List.takeWhile_cons, List.dropWhile_cons, hx]
  | cons y a2 ih =>
    intro x b ha hx
    have hy : p y = true := ha y (by simp)
    have ha2 : ∀ z ∈ a2, p z = true := fun z hz => ha z (List.mem_cons_of_mem _ hz)
    have := ih x b ha2 hx
    simp [List.takeWhile_cons, List.dropWhile_cons, hy, this.1, this.2]

/-- C6.  When the tokenizer meets a double quote with no further double quote
on the line, it produces a single token running from that quote through the
end of the line, with no closing quote appended (and nothing after it); when a
closing quote exists, the token carries both quote characters and scanning
resumes after the closing quote. -/
theorem claim6_string_literal_tokens :
    (∀ cs : List Char, ¬('"' ∈ cs) →
      tokenizeLine ('"' :: cs) = [String.mk ('"' :: cs)]) ∧
    (∀ a b : List Char, ¬('"' ∈ a) →
      tokenizeLine ('"' :: (a ++ '"' :: b))
        = String.mk ('"' :: (a ++ ['"'])) :: tokenizeLine b) := by
  constructor
  · intro cs h
    have hall : ∀ y ∈ cs, (!(y == '"')) = true := by
      intro y hy
      have hne : ¬y = '"' := by
        intro he
        subst he
        exact h hy
      simpa using hne
    have hd : cs.dropWhile (fun d => !(d == '"')) = [] :=
      List.dropWhile_eq_nil_iff.mpr hall
    have ht : cs.takeWhile (fun d => !(d == '"')) = cs :=
      List.takeWhile_eq_self_iff.mpr hall
    rw [tokenizeLine.eq_def]
    dsimp only
    rw [if_neg (by decide), if_pos (by decide), if_pos hd, ht]
  · intro a b h
    have hall : ∀ y ∈ a, (!(y == '"')) = true := by
      intro y hy
      have hne : ¬y = '"' := by
        intro he
        subst he
        exact h hy
      simpa using hne
    have hsplit := takeWhile_dropWhile_append (fun d => !(d == '"')) a '"' b hall (by decide)
    rw [tokenizeLine.eq_def]
    dsimp only
    rw [if_neg (by decide), if_pos (by decide), if_neg (by rw [hsplit.2]; simp),
      hsplit.1, hsplit.2]
    rfl

/-- C6 witness: the statement applied to the unterminated line "abc and to the
terminated line "hi"x. -/
theorem claim6_string_literal_tokens_witness :
    (¬('"' ∈ (['a', 'b', 'c'] : List Char)) ∧
      tokenizeLine ['"', 'a', 'b', 'c'] = [String.mk ['"', 'a', 'b', 'c']]) ∧
    (¬('"' ∈ (['h', 'i'] : List Char)) ∧
      tokenizeLine ('"' :: (['h', 'i'] ++ '"' :: ['x']))
        = String.mk ('"' :: (['h', 'i'] ++ ['"'])) :: tokenizeLine ['x']) :=
  ⟨⟨by decide, claim6_string_literal_tokens.1 ['a', 'b', 'c'] (by decide)⟩,
   ⟨by decide, claim6_string_literal_tokens.2 ['h', 'i'] ['x'] (by decide)⟩⟩

/-! ## C9 -/

/-- C9.  The process exits with status 1 (after a diagnostic) exactly when
tokenization yields no tokens, which happens exactly when the input could not
be opened or the opened input has no lines; in every other case — including
runs whose lines are all unrecognized — it exits with status 0. -/
theorem claim9_exit_status :
    ∀ input : Option (List (List Char)),
      (mainExit input = 0 ∨ mainExit input = 1) ∧
      (¬mainExit input = 0 ↔ tokenizeFileTokens input = []) ∧
      (tokenizeFileTokens input = [] ↔ (input = none ∨ input = some [])) := by
  intro input
  refine ⟨?_, ?_, ?_⟩
  · unfold mainExit
    split
    · right; rfl
    · left; rfl
  · unfold mainExit
    split
    · rename_i hemp
      simp only [List.isEmpty_iff] at hemp
      simp [hemp]
    · rename_i hemp
      simp only [List.isEmpty_iff] at hemp
      simp [hemp]
  · cases input with
    | none => simp [tokenizeFileTokens]
    | some lines =>
      cases lines with
      | nil => simp [tokenizeFileTokens]
      | cons l rest =>
        simp only [tokenizeFileTokens, List.map_cons, List.flatten_cons]
        constructor
        · intro he
          simp at he
        · intro he
          rcases he with he | he <;> simp at he

/-! ## C10 -/

/-- No closing parenthesis is met at nesting depth zero anywhere in the token
list, starting from depth d. -/
def noTopClose : List String → Nat → Bool
  | [], _ => true
  | t :: r, d =>
    if t == "(" then noTopClose r (d + 1)
    else if t == ")" then !(d == 0) && noTopClose r (d - 1)
    else noTopClose r d

/-- Neither a closing parenthesis nor a comma is met at nesting depth zero
anywhere in the token list, starting from depth d. -/
def noTopCommaClose : List String → Nat → Bool
  | [], _ => true
  | t :: r, d =>
    if t == "(" then noTopCommaClose r (d + 1)
    else if t == ")" then !(d == 0) && noTopCommaClose r (d - 1)
    else if t == "," then !(d == 0) && noTopCommaClose r d
    else noTopCommaClose r d

/-- C10.  When no closing parenthesis occurs at depth zero in the remaining
tokens, the argument splitter consumes every remaining token (empty cursor
rest); line-boundary markers are silently skipped rather than ending the
argument list; and from any point after the last top-level comma (no further
top-level comma or close), the splitter returns exactly the
already-completed arguments — the text buffered in cur is discarded. -/
theorem claim10_unclosed_call :
    (∀ (l : List String) (d : Nat) (cur : String) (args : List String),
      noTopClose l d = true → (splitArgsAux l d cur args).2 = []) ∧
    (∀ (r : List String) (d : Nat) (cur : String) (args : List String),
      splitArgsAux ("\n" :: r) d cur args = splitArgsAux r d cur args) ∧
    (∀ (l : List String) (d : Nat) (cur : String) (args : List String),
      noTopCommaClose l d = true → splitArgsAux l d cur args = (args, [])) := by
  refine ⟨?_, ?_, ?_⟩
  · intro l
    induction l with
    | nil => intro d cur args _; simp [splitArgsAux]
    | cons t r ih =>
      intro d cur args h
      rw [noTopClose.eq_def] at h
      dsimp only at h
      rw [splitArgsAux.eq_def]
      dsimp only
      split
      · rename_i h1
        rw [if_pos h1] at h
        exact ih _ _ _ h
      · rename_i h1
        rw [if_neg h1] at h
        split
        · rename_i h2
          rw [if_pos h2] at h
          simp only [Bool.and_eq_true, Bool.not_eq_eq_eq_not, Bool.not_true] at h
          rw [if_neg (by simp [h.1])]
          exact ih _ _ _ h.2
        · rename_i h2
          rw [if_neg h2] at h
          split
          · exact ih _ _ _ h
          · split
            · exact ih _ _ _ h
            · exact ih _ _ _ h
  · intro r d cur args
    rw [splitArgsAux.eq_def]
    dsimp only
    rw [if_neg (by decide), if_neg (by decide), if_neg (by simp), if_pos (by decide)]
  · intro l
    induction l with
    | nil => intro d cur args _; simp [splitArgsAux]
    | cons t r ih =>
      intro d cur args h
      rw [noTopCommaClose.eq_def] at h
      dsimp only at h
      rw [splitArgsAux.eq_def]
      dsimp only
      split
      · rename_i h1
        rw [if_pos h1] at h
        exact ih _ _ _ h
      · rename_i h1
        rw [if_neg h1] at h
        split
        · rename_i h2
          rw [if_pos h2] at h
          simp only [Bool.and_eq_true, Bool.not_eq_eq_eq_not, Bool.not_true] at h
          rw [if_neg (by simp [h.1])]
          exact ih _ _ _ h.2
        · rename_i h2
          rw [if_neg h2] at h
          split
          · rename_i h3
            have h3c : (t == ",") = true := by
              rcases Bool.and_eq_true .. |>.mp h3 with ⟨hc, _⟩
              exact hc
            rw [if_pos h3c] at h
            simp only [Bool.and_eq_true, Bool.not_eq_eq_eq_not, Bool.not_true] at h
            rcases Bool.and_eq_true .. |>.mp h3 with ⟨_, hd0⟩
            exact absurd hd0 (by simp [h.1])
          · split
            · rename_i h3 h4
              have ht : (t == ",") = false := by
                have hnl : t = "\n" := by simpa [isNewlineToken] using h4
                subst hnl
                decide
              rw [if_neg (by simp [ht])] at h
              exact ih _ _ _ h
            · rename_i h3 h4
              by_cases hc : (t == ",") = true
              · rw [if_pos hc] at h
                simp only [Bool.and_eq_true] at h
                exact ih _ _ _ h.2
              · rw [if_neg hc] at h
                exact ih _ _ _ h

/-! ## C2 -/

/-- Serialization of one argument segment under the splitter's spacing rule:
a single space between adjacent tokens exactly when both are word-like. -/
def serializeArgS : List String → String
  | [] => ""
  | [t] => t
  | t :: u :: r =>
    t ++ (if wordLikeS t && wordLikeS u then " " else "") ++ serializeArgS (u :: r)

/-- Reference segmentation of an argument list's tokens, from the claim's
words: split at the commas occurring at nesting depth zero with respect to the
list's own parentheses.  seg accumulates the current segment. -/
def topSegments : List String → Nat → List String → List (List String)
  | [], _, seg => [seg]
  | t :: r, d, seg =>
    if t == "(" then topSegments r (d + 1) (seg ++ [t])
    else if t == ")" then topSegments r (d - 1) (seg ++ [t])
    else if t == "," && d == 0 then seg :: topSegments r 0 []
    else topSegments r d (seg ++ [t])

/-- Reference argument list: the top-level comma-separated segments, each
re-serialized and trimmed, with empty results dropped. -/
def refArgs (inner : List String) : List String :=
  ((topSegments inner 0 []).map (fun ts => cTrim (serializeArgS ts))).filter
    (fun s => !s.isEmpty)

/-- Nesting depth after a token list, starting from d. -/
def finalDepth : List String → Nat → Nat
  | [], d => d
  | t :: r, d =>
    if t == "(" then finalDepth r (d + 1)
    else if t == ")" then finalDepth r (d - 1)
    else finalDepth r d

/-- The splitter's buffer contents while a segment is open: the serialized
segment so far, plus the trailing space already emitted when the last appended
token and the token now under the cursor are both word-like. -/
def curOf (seg : List String) (next : String) : String :=
  serializeArgS seg ++
    (match seg.getLast? with
     | none => ""
     | some l => if wordLikeS l && wordLikeS next then " " else "")

theorem serializeArgS_append (seg : List String) (x : String) :
    serializeArgS (seg ++ [x]) =
      serializeArgS seg ++
        (match seg.getLast? with
         | none => ""
         | some l => if wordLikeS l && wordLikeS x then " " else "") ++ x := by
  induction seg with
  | nil => simp [serializeArgS]
  | cons t seg2 ih =>
    cases seg2 with
    | nil =>
      simp only [List.cons_append, List.nil_append, serializeArgS, List.getLast?_singleton]
    | cons u seg3 =>
      simp only [List.cons_append] at ih ⊢
      simp only [serializeArgS]
      rw [List.getLast?_cons_cons, ih]
      simp [String.append_assoc]

theorem curOf_nonword (seg : List String) (t : String) (h : wordLikeS t = false) :
    curOf seg t = serializeArgS seg := by
  unfold curOf
  cases hgl : seg.getLast? with
  | none => exact String.append_empty _
  | some l =>
    rw [h]
    simp

theorem curOf_snoc (seg : List String) (t next : String) :
    curOf seg t ++ t ++ (if wordLikeS t && wordLikeS next then " " else "")
      = curOf (seg ++ [t]) next := by
  unfold curOf
  rw [serializeArgS_append, List.getLast?_concat]

theorem flushArg_eq (args : List String) (c : String) :
    flushArg args c = args ++ (if (cTrim c).isEmpty then [] else [cTrim c]) := by
  unfold flushArg
  by_cases he : (cTrim c).isEmpty = true
  · simp [he]
  · simp [he]

theorem splitArgsAux_ref :
    ∀ (inner : List String) (d : Nat) (seg args after : List String),
      ¬"\n" ∈ inner →
      noTopClose inner d = true →
      finalDepth inner d = 0 →
      splitArgsAux (inner ++ ")" :: after) d (curOf seg (inner.headD ")")) args
        = (args ++
            ((topSegments inner d seg).map (fun ts => cTrim (serializeArgS ts))).filter
              (fun s => !s.isEmpty),
           after) := by
  intro inner
  induction inner with
  | nil =>
    intro d seg args after _ _ hfd
    have hd0 : d = 0 := hfd
    subst hd0
    rw [List.nil_append, splitArgsAux.eq_def]
    dsimp only
    rw [if_neg (by decide), if_pos (by decide), if_pos (by decide)]
    rw [show (([] : List String).headD ")") = ")" from rfl] 
    rw [curOf_nonword seg ")" (by decide), flushArg_eq]
    rw [show topSegments [] 0 seg = [seg] from rfl]
    simp only [List.map_cons, List.map_nil, List.filter]
    by_cases he : (cTrim (serializeArgS seg)).isEmpty = true
    · simp [he]
    · simp [he]
  | cons t r ih =>
    intro d seg args after hmem hcl hfd
    have hmem_r : ¬"\n" ∈ r := fun h => hmem (List.mem_cons_of_mem _ h)
    have hne : ¬t = "\n" := fun h => hmem (by simp [h])
    rw [noTopClose.eq_def] at hcl
    rw [finalDepth.eq_def] at hfd
    dsimp only at hcl hfd
    rw [List.cons_append, splitArgsAux.eq_def]
    dsimp only
    rw [show ((t :: r).headD ")") = t from rfl] at *
    by_cases h1 : (t == "(") = true
    · rw [if_pos h1]
      rw [if_pos h1] at hcl hfd
      have ht : t = "(" := by simpa using h1
      subst ht
      have hx := curOf_snoc seg "(" (r.headD ")")
      rw [show wordLikeS "(" = false from by decide, Bool.false_and, if_neg (by decide),
        String.append_empty] at hx
      rw [hx]
      rw [show topSegments ("(" :: r) d seg = topSegments r (d + 1) (seg ++ ["("]) from by
        rw [topSegments.eq_def]; dsimp only; rw [if_pos (by decide)]]
      exact ih (d + 1) (seg ++ ["("]) args after hmem_r hcl hfd
    · rw [if_neg h1]
      rw [if_neg h1] at hcl hfd
      by_cases h2 : (t == ")") = true
      · rw [if_pos h2]
        rw [if_pos h2] at hcl hfd
        have ht : t = ")" := by simpa using h2
        subst ht
        simp only [Bool.and_eq_true, Bool.not_eq_eq_eq_not, Bool.not_true] at hcl
        rw [if_neg (by simp [hcl.1])]
        have hx := curOf_snoc seg ")" (r.headD ")")
        rw [show wordLikeS ")" = false from by decide, Bool.false_and, if_neg (by decide),
          String.append_empty] at hx
        rw [hx]
        rw [show topSegments (")" :: r) d seg = topSegments r (d - 1) (seg ++ [")"]) from by
          rw [topSegments.eq_def]; dsimp only; rw [if_neg (by decide), if_pos (by decide)]]
        exact ih (d - 1) (seg ++ [")"]) args after hmem_r hcl.2 hfd
      · rw [if_neg h2]
        rw [if_neg h2] at hcl hfd
        by_cases h3 : (t == "," && d == 0) = true
        · rw [if_pos h3]
          rcases Bool.and_eq_true .. |>.mp h3 with ⟨hc, hd0⟩
          have ht : t = "," := by simpa using hc
          have hd0' : d = 0 := by simpa using hd0
          subst ht
          subst hd0'
          rw [curOf_nonword seg "," (by decide), flushArg_eq]
          rw [show ("" : String) = curOf [] (r.headD ")") from rfl]
          rw [ih 0 [] (args ++ if (cTrim (serializeArgS seg)).isEmpty then []
              else [cTrim (serializeArgS seg)]) after hmem_r hcl hfd]
          rw [show topSegments ("," :: r) 0 seg = seg :: topSegments r 0 [] from by
            rw [topSegments.eq_def]; dsimp only
            rw [if_neg (by decide), if_neg (by decide), if_pos (by decide)]]
          simp only [List.map_cons, List.filter_cons]
          by_cases he : (cTrim (serializeArgS seg)).isEmpty = true
          · simp [he]
          · simp [he]
        · rw [if_neg h3, if_neg (by simpa [isNewlineToken] using hne)]
          have hcl2 : noTopClose r d = true := hcl
          have hfd2 : finalDepth r d = 0 := hfd
          rw [show topSegments (t :: r) d seg = topSegments r d (seg ++ [t]) from by
            rw [topSegments.eq_def]; dsimp only
            rw [if_neg h1, if_neg h2, if_neg h3]]
          cases r with
          | nil =>
            simp only [List.nil_append]
            rw [curOf_snoc seg t ")"]
            exact ih d (seg ++ [t]) args after (by simp) hcl2 hfd2
          | cons n r2 =>
            simp only [List.cons_append]
            rw [curOf_snoc seg t n]
            exact ih d (seg ++ [t]) args after hmem_r hcl2 hfd2

/-- C2.  For a print line dekhao ( inner ) trail, where inner has no line
markers, no unmatched top-level closing parenthesis, and balanced depth, the
scan appends exactly one output line consisting of one output operation per
element of refArgs inner — the top-level comma-separated segments of inner in
order, re-serialized, trimmed, with empty results dropped — followed by one
newline output (std::endl); trailing tokens after the close are discarded and
the scan resumes at the next line. -/
theorem claim2_print_emission (inner trail rest body : List String) (s f : Bool)
    (hin : ¬"\n" ∈ inner) (hcl : noTopClose inner 0 = true) (hfd : finalDepth inner 0 = 0)
    (htr : ¬"\n" ∈ trail) :
    transpileAux ("dekhao" :: "(" :: (inner ++ ")" :: (trail ++ "\n" :: rest))) body s f =
      transpileAux rest
        (body ++
          ["std::cout" ++ String.join ((refArgs inner).map (fun a => " << " ++ a)) ++
            " << std::endl;"])
        s f := by
  have hsplit : splitArgs (inner ++ ")" :: (trail ++ "\n" :: rest))
      = (refArgs inner, trail ++ "\n" :: rest) := by
    unfold splitArgs refArgs
    rw [show ("" : String) = curOf [] (inner.headD ")") from rfl]
    rw [splitArgsAux_ref inner 0 [] [] (trail ++ "\n" :: rest) hin hcl hfd]
    rw [List.nil_append]
  rw [transpileAux.eq_def]
  dsimp only
  rw [if_neg (by decide), if_pos (by decide), if_pos (by rfl)]
  rw [List.tail_cons, hsplit]
  dsimp only
  rw [dropToEOL_append trail rest htr]
  exact transpileAux_newline rest _ s f

/-- C2 witness: the print statement applied to the line dekhao("Hello", x). -/
theorem claim2_print_emission_witness :
    ¬"\n" ∈ (["\"Hello\"", ",", "x"] : List String) ∧
    noTopClose ["\"Hello\"", ",", "x"] 0 = true ∧
    finalDepth ["\"Hello\"", ",", "x"] 0 = 0 ∧
    transpileAux ["dekhao", "(", "\"Hello\"", ",", "x", ")", "\n"] [] false false =
      transpileAux []
        ([] ++
          ["std::cout" ++
            String.join ((refArgs ["\"Hello\"", ",", "x"]).map (fun a => " << " ++ a)) ++
            " << std::endl;"])
        false false :=
  ⟨by decide, by decide, by decide,
    claim2_print_emission ["\"Hello\"", ",", "x"] [] [] [] false false
      (by decide) (by decide) (by decide) (by decide)⟩

/-! ## C8 -/

theorem transpileAux_step_newline (t : String) (rest body : List String) (s f : Bool)
    (h1 : isNewlineToken t = true) :
    transpileAux (t :: rest) body s f = transpileAux rest body s f := by
  rw [transpileAux.eq_def]
  dsimp only
  rw [if_pos h1]

theorem transpileAux_step_print (t : String) (rest body : List String) (s f : Bool)
    (h1 : isNewlineToken t = false) (h2 : (t == "dekhao") = true)
    (h3 : (rest.head? == some "(") = true) :
    transpileAux (t :: rest) body s f
      = transpileAux (((splitArgs rest.tail).2).dropWhile (fun x => !(x == "\n")))
          (body ++
            ["std::cout" ++
              String.join ((splitArgs rest.tail).1.map (fun a => " << " ++ a)) ++
              " << std::endl;"])
          s f := by
  rw [transpileAux.eq_def]
  dsimp only
  rw [if_neg (by simp [h1]), if_pos h2, if_pos h3]

theorem transpileAux_step_skip_dekhao (t : String) (rest body : List String) (s f : Bool)
    (h1 : isNewlineToken t = false) (h2 : (t == "dekhao") = true)
    (h3 : (rest.head? == some "(") = false) :
    transpileAux (t :: rest) body s f
      = transpileAux (rest.dropWhile (fun x => !(x == "\n"))) body s f := by
  rw [transpileAux.eq_def]
  dsimp only
  rw [if_neg (by simp [h1]), if_pos h2, if_neg (by simp [h3])]

theorem transpileAux_step_declkw (t : String) (rest body : List String) (s f : Bool)
    (h1 : isNewlineToken t = false) (h2 : (t == "dekhao") = false)
    (h3 : (decide (3 ≤ rest.length) && isTypeKeyword t) = true) :
    transpileAux (t :: rest) body s f
      = transpileAux
          ((readExprUntilEOL
            (if rest.tail.headD "" == "te" then rest.tail.tail else rest.tail)).2)
          (body ++ [cppType t ++ " " ++ rest.headD "" ++ " = " ++
            (readExprUntilEOL
              (if rest.tail.headD "" == "te" then rest.tail.tail else rest.tail)).1 ++ ";"])
          (s || (t == "string")) (f || (t == "float")) := by
  rw [transpileAux.eq_def]
  dsimp only
  rw [if_neg (by simp [h1]), if_neg (by simp [h2]), if_pos h3]

theorem transpileAux_step_skip_other (t : String) (rest body : List String) (s f : Bool)
    (h1 : isNewlineToken t = false) (h2 : (t == "dekhao") = false)
    (h3 : (decide (3 ≤ rest.length) && isTypeKeyword t) = false) :
    transpileAux (t :: rest) body s f
      = transpileAux (rest.dropWhile (fun x => !(x == "\n"))) body s f := by
  rw [transpileAux.eq_def]
  dsimp only
  rw [if_neg (by simp [h1]), if_neg (by simp [h2]), if_neg (by simp [h3])]

theorem declFlags_step_newline (t : String) (rest : List String)
    (h1 : isNewlineToken t = true) :
    declFlags (t :: rest) = declFlags rest := by
  rw [declFlags.eq_def]
  dsimp only
  rw [if_pos h1]

theorem declFlags_step_print (t : String) (rest : List String)
    (h1 : isNewlineToken t = false) (h2 : (t == "dekhao") = true)
    (h3 : (rest.head? == some "(") = true) :
    declFlags (t :: rest)
      = declFlags (((splitArgs rest.tail).2).dropWhile (fun x => !(x == "\n"))) := by
  rw [declFlags.eq_def]
  dsimp only
  rw [if_neg (by simp [h1]), if_pos h2, if_pos h3]

theorem declFlags_step_skip_dekhao (t : String) (rest : List String)
    (h1 : isNewlineToken t = false) (h2 : (t == "dekhao") = true)
    (h3 : (rest.head? == some "(") = false) :
    declFlags (t :: rest) = declFlags (rest.dropWhile (fun x => !(x == "\n"))) := by
  rw [declFlags.eq_def]
  dsimp only
  rw [if_neg (by simp [h1]), if_pos h2, if_neg (by simp [h3])]

theorem declFlags_step_declkw (t : String) (rest : List String)
    (h1 : isNewlineToken t = false) (h2 : (t == "dekhao") = false)
    (h3 : (decide (3 ≤ rest.length) && isTypeKeyword t) = true) :
    declFlags (t :: rest)
      = ((t == "string") ||
          (declFlags ((readExprUntilEOL
            (if rest.tail.headD "" == "te" then rest.tail.tail else rest.tail)).2)).1,
         (t == "float") ||
          (declFlags ((readExprUntilEOL
            (if rest.tail.headD "" == "te" then rest.tail.tail else rest.tail)).2)).2) := by
  rw [declFlags.eq_def]
  dsimp only
  rw [if_neg (by simp [h1]), if_neg (by simp [h2]), if_pos h3]

theorem declFlags_step_skip_other (t : String) (rest : List String)
    (h1 : isNewlineToken t = false) (h2 : (t == "dekhao") = false)
    (h3 : (decide (3 ≤ rest.length) && isTypeKeyword t) = false) :
    declFlags (t :: rest) = declFlags (rest.dropWhile (fun x => !(x == "\n"))) := by
  rw [declFlags.eq_def]
  dsimp only
  rw [if_neg (by simp [h1]), if_neg (by simp [h2]), if_neg (by simp [h3])]

theorem transpileAux_char_aux :
    ∀ (n : Nat) (tok : List String), tok.length ≤ n → ∀ (body : List String) (s f : Bool),
      transpileAux tok body s f
        = (body ++ (transpileAux tok [] false false).1,
           s || (declFlags tok).1, f || (declFlags tok).2) := by
  intro n
  induction n with
  | zero =>
    intro tok h body s f
    have he : tok = [] := List.length_eq_zero.mp (Nat.le_zero.mp h)
    subst he
    simp [transpileAux, declFlags]
  | succ n ih =>
    intro tok h body s f
    cases tok with
    | nil => simp [transpileAux, declFlags]
    | cons t rest =>
      have hlen : rest.length ≤ n := by
        simp only [List.length_cons] at h
        omega
      by_cases h1 : isNewlineToken t = true
      · rw [transpileAux_step_newline t rest body s f h1,
          transpileAux_step_newline t rest [] false false h1,
          declFlags_step_newline t rest h1]
        exact ih rest hlen body s f
      · have h1' : isNewlineToken t = false := by simpa using h1
        by_cases h2 : (t == "dekhao") = true
        · by_cases h3 : (rest.head? == some "(") = true
          · set X := ((splitArgs rest.tail).2).dropWhile (fun x => !(x == "\n")) with hX
            have hXlen : X.length ≤ n := by
              have ha : (splitArgs rest.tail).2.length ≤ rest.tail.length :=
                splitArgsAux_rest_length_le rest.tail 0 "" []
              have hb := length_dropWhile_le (fun x => !(x == "\n")) (splitArgs rest.tail).2
              have hc : rest.tail.length ≤ rest.length := by
                cases rest <;> simp
              rw [hX]
              omega
            rw [transpileAux_step_print t rest body s f h1' h2 h3,
              transpileAux_step_print t rest [] false false h1' h2 h3,
              declFlags_step_print t rest h1' h2 h3]
            conv_lhs => rw [ih X hXlen _ s f]
            conv_rhs => rw [ih X hXlen _ false false]
            simp [List.append_assoc]
          · have h3' : (rest.head? == some "(") = false := by simpa using h3
            set X := rest.dropWhile (fun x => !(x == "\n")) with hX
            have hXlen : X.length ≤ n := by
              have hb := length_dropWhile_le (fun x => !(x == "\n")) rest
              rw [hX]
              omega
            rw [transpileAux_step_skip_dekhao t rest body s f h1' h2 h3',
              transpileAux_step_skip_dekhao t rest [] false false h1' h2 h3',
              declFlags_step_skip_dekhao t rest h1' h2 h3']
            exact ih X hXlen body s f
        · have h2' : (t == "dekhao") = false := by simpa using h2
          by_cases h3 : (decide (3 ≤ rest.length) && isTypeKeyword t) = true
          · set X := (readExprUntilEOL
              (if rest.tail.headD "" == "te" then rest.tail.tail else rest.tail)).2 with hX
            have hXlen : X.length ≤ n := by
              have ha := readExprUntilEOL_rest_length_le
                (if rest.tail.headD "" == "te" then rest.tail.tail else rest.tail)
              have hb : (if rest.tail.headD "" == "te" then rest.tail.tail
                  else rest.tail).length ≤ rest.length := by
                split <;> simp [List.length_tail] <;> omega
              rw [hX]
              omega
            rw [transpileAux_step_declkw t rest body s f h1' h2' h3,
              transpileAux_step_declkw t rest [] false false h1' h2' h3,
              declFlags_step_declkw t rest h1' h2' h3]
            conv_lhs => rw [ih X hXlen _ (s || (t == "string")) (f || (t == "float"))]
            conv_rhs => rw [ih X hXlen _ (false || (t == "string")) (false || (t == "float"))]
            simp [hX, List.append_assoc, Bool.or_assoc]
          · have h3' : (decide (3 ≤ rest.length) && isTypeKeyword t) = false := by
              simpa using h3
            set X := rest.dropWhile (fun x => !(x == "\n")) with hX
            have hXlen : X.length ≤ n := by
              have hb := length_dropWhile_le (fun x => !(x == "\n")) rest
              rw [hX]
              omega
            rw [transpileAux_step_skip_other t rest body s f h1' h2' h3',
              transpileAux_step_skip_other t rest [] false false h1' h2' h3',
              declFlags_step_skip_other t rest h1' h2' h3']
            exact ih X hXlen body s f

theorem indent_ne_header (st : String) : ¬("    " ++ st) = "#include <string>" := by
  intro h
  have h1 : ("    " ++ st).data.headD ' ' = ' ' := by
    rw [String.data_append]
    rfl
  rw [h] at h1
  exact absurd h1 (by decide)

theorem header_mem (body : List String) (u : Bool) :
    "#include <string>" ∈ outputLines body u ↔ u = true := by
  cases u with
  | true => simp [outputLines]
  | false => simp [outputLines, indent_ne_header]

/-- C8.  The whole scan is the pure scan of the remaining tokens with the
incoming state folded in: the emitted lines are appended after the incoming
body in scan order, and each feature flag is the boolean or of its incoming
value and the flags of the scanned statements — so a flag set true is never
reset, and flags accumulate monotonically.  Moreover, the generated program's
line list contains the string-include header line exactly when at least one
recognized declaration in the token sequence used the string type keyword. -/
theorem claim8_flags_and_header :
    (∀ (tok body : List String) (s f : Bool),
      transpileAux tok body s f
        = (body ++ (transpileAux tok [] false false).1,
           s || (declFlags tok).1, f || (declFlags tok).2)) ∧
    (∀ tok : List String,
      ("#include <string>" ∈
          outputLines (transpileAux tok [] false false).1
            (transpileAux tok [] false false).2.1)
        ↔ (declFlags tok).1 = true) := by
  have hchar : ∀ (tok body : List String) (s f : Bool),
      transpileAux tok body s f
        = (body ++ (transpileAux tok [] false false).1,
           s || (declFlags tok).1, f || (declFlags tok).2) :=
    fun tok body s f => transpileAux_char_aux tok.length tok (Nat.le_refl _) body s f
  refine ⟨hchar, ?_⟩
  intro tok
  rw [header_mem]
  rw [hchar tok [] false false]
  simp

/-- C10 witness: the statement applied to an unclosed call whose tokens cross
a line boundary, and to a trailing buffer with no completing comma. -/
theorem claim10_unclosed_call_witness :
    (noTopClose ["a", "\n", "b"] 0 = true ∧
      (splitArgsAux ["a", "\n", "b"] 0 "" ["p"]).2 = []) ∧
    splitArgsAux ["\n", "x"] 2 "c" ["p"] = splitArgsAux ["x"] 2 "c" ["p"] ∧
    (noTopCommaClose ["x", "\n"] 0 = true ∧
      splitArgsAux ["x", "\n"] 0 "q" ["p"] = (["p"], [])) :=
  ⟨⟨by decide, claim10_unclosed_call.1 ["a", "\n", "b"] 0 "" ["p"] (by decide)⟩,
   claim10_unclosed_call.2.1 ["x"] 2 "c" ["p"],
   ⟨by decide, claim10_unclosed_call.2.2 ["x", "\n"] 0 "q" ["p"] (by decide)⟩⟩
